import Mathlib

/-!
Shallow embedding of the geometric/shading core of the ray tracer:
intersection records and hit selection (`scene/intersect.rs`), the cube and
plane local intersection routines (`scene/object/cube.rs`,
`scene/object/plane.rs`), the bounding-box decorator
(`scene/object/bounded.rs`), the transform decorator
(`scene/object/transformed.rs`) and the Phong lighting function and material
equality (`scene/material.rs`).

Real-number quantities (`f64` in the source) are embedded as exact rationals;
where the source relies on IEEE-754 special values (division by zero in the
slab method) an extended type `EF` with signed infinities and NaN is used,
mirroring the Rust comparison, `max` and `min` semantics on `f64`.
-/

namespace RTC

/-- A 3-component vector (`Vec3d` in `math/vector.rs`, not under `src/`;
modelled from the spec data model: 3-component real tuple). -/
structure Vec3 where
  x : ℚ
  y : ℚ
  z : ℚ
deriving DecidableEq, Repr

/-- A 3-component point (`Point3d` in `math/point.rs`, not under `src/`;
modelled from the spec data model). -/
structure Point3 where
  x : ℚ
  y : ℚ
  z : ℚ
deriving DecidableEq, Repr

def Vec3.dot (a b : Vec3) : ℚ :=
  a.x * b.x + a.y * b.y + a.z * b.z

def Vec3.neg (a : Vec3) : Vec3 :=
  ⟨-a.x, -a.y, -a.z⟩

def Vec3.add (a b : Vec3) : Vec3 :=
  ⟨a.x + b.x, a.y + b.y, a.z + b.z⟩

def Vec3.smul (c : ℚ) (a : Vec3) : Vec3 :=
  ⟨c * a.x, c * a.y, c * a.z⟩

def Vec3.sub (a b : Vec3) : Vec3 :=
  ⟨a.x - b.x, a.y - b.y, a.z - b.z⟩

/-- Modelled from the spec: `reflect` of `math/vector.rs` is not under
`src/`; spec §4.7 uses the standard reflection about a unit normal,
`v − 2 (v·n) n`. -/
def Vec3.reflect (v n : Vec3) : Vec3 :=
  v.sub (Vec3.smul (2 * v.dot n) n)

def Point3.addVec (p : Point3) (v : Vec3) : Point3 :=
  ⟨p.x + v.x, p.y + v.y, p.z + v.z⟩

def Point3.subPoint (p q : Point3) : Vec3 :=
  ⟨p.x - q.x, p.y - q.y, p.z - q.z⟩

/-- `Ray` (`scene/ray.rs`, not under `src/`; modelled from the spec data
model: origin plus direction). -/
structure Ray where
  origin : Point3
  direction : Vec3
deriving DecidableEq, Repr

/-- Modelled from the spec: `Ray::position`, `position(t) = origin + t·direction`. -/
def Ray.position (r : Ray) (t : ℚ) : Point3 :=
  r.origin.addVec (Vec3.smul t r.direction)

/-- Modelled from the spec: a ray is transformed into another frame by
applying a transform to both origin and direction; the two actions are
passed as functions. -/
def Ray.transformBy (r : Ray) (mp : Point3 → Point3) (mv : Vec3 → Vec3) : Ray :=
  ⟨mp r.origin, mv r.direction⟩

/-- `Intersection` from `scene/intersect.rs`: a ray parameter `t` and a
reference to the hit object.  The object reference is embedded as a value of
an arbitrary tag type `ι` (reference identity becomes tag equality). -/
structure Intersection (ι : Type) where
  t : ℚ
  object : ι
deriving DecidableEq, Repr

/-- The fold step of `hit` in `scene/intersect.rs` lines 71-80:
`acc.map(|lowest| if lowest.t() < i.t() { lowest } else { i }).or(Some(i))`
guarded by `i.t() >= 0.0`. -/
def hitStep {ι : Type} (acc : Option (Intersection ι)) (i : Intersection ι) :
    Option (Intersection ι) :=
  if 0 ≤ i.t then
    match acc with
    | some lowest => some (if lowest.t < i.t then lowest else i)
    | none => some i
  else acc

/-- `hit` from `scene/intersect.rs` lines 71-80: a left fold over the
intersection list starting from `none`. -/
def hit {ι : Type} (intersections : List (Intersection ι)) : Option (Intersection ι) :=
  intersections.foldl hitStep none

/-- `SHADOW_BIAS` from `scene/intersect.rs` line 5. -/
def SHADOW_BIAS : ℚ := 1 / 100000

/-- `Precomputation` from `scene/intersect.rs`. -/
structure Precomputation (ι : Type) where
  t : ℚ
  object : ι
  point : Point3
  eyeV : Vec3
  normalV : Vec3
  inside : Bool
  overPoint : Point3
deriving DecidableEq, Repr

/-- `Intersection::prepare_computations` from `scene/intersect.rs` lines
37-62.  The source computes `eye_v = normalize(-ray.direction)` and
`normal_v = object.normal_at(point)`; both normalizations involve square
roots that are not rational, so the two already-computed unit vectors are
passed in as arguments (`eyeV`, `normalV`).  The branch on
`normal_dot_eye < 0.0`, the normal flip, the `inside` flag and
`over_point = point + adjusted_normal * SHADOW_BIAS` follow the source. -/
def prepareComputations {ι : Type} (i : Intersection ι) (ray : Ray)
    (eyeV normalV : Vec3) : Precomputation ι :=
  let t := i.t
  let point := ray.position t
  let normalDotEye := normalV.dot eyeV
  let pair : Vec3 × Bool :=
    if normalDotEye < 0 then (normalV.neg, true) else (normalV, false)
  let overPoint := point.addVec (Vec3.smul SHADOW_BIAS pair.1)
  ⟨t, i.object, point, eyeV, pair.1, pair.2, overPoint⟩

/-- An `f64` value as used by the slab method: an exact rational, a signed
infinity, or NaN.  Exact division replaces IEEE rounding; the special-value
behavior of division, comparison, `max` and `min` follows IEEE-754 / Rust
`f64` (`0/0 = NaN`, `x/0 = ±∞` for `x ≠ 0`, comparisons with NaN are false,
`max`/`min` ignore a NaN argument). -/
inductive EF where
  | nan : EF
  | negInf : EF
  | posInf : EF
  | fin : ℚ → EF
deriving DecidableEq, Repr

/-- IEEE `<` on `EF` (any comparison with NaN is false). -/
def EF.lt : EF → EF → Bool
  | .nan, _ => false
  | _, .nan => false
  | .negInf, .negInf => false
  | .negInf, .posInf => true
  | .negInf, .fin _ => true
  | .posInf, _ => false
  | .fin _, .negInf => false
  | .fin _, .posInf => true
  | .fin a, .fin b => decide (a < b)

/-- IEEE `<=` on `EF` (any comparison with NaN is false). -/
def EF.le : EF → EF → Bool
  | .nan, _ => false
  | _, .nan => false
  | .negInf, _ => true
  | .posInf, .posInf => true
  | .posInf, _ => false
  | .fin _, .negInf => false
  | .fin _, .posInf => true
  | .fin a, .fin b => decide (a ≤ b)

/-- Rust `f64::max`: a NaN argument is ignored, otherwise the greater value. -/
def EF.fmax (a b : EF) : EF :=
  if a = .nan then b else if b = .nan then a else if a.lt b then b else a

/-- Rust `f64::min`: a NaN argument is ignored, otherwise the lesser value. -/
def EF.fmin (a b : EF) : EF :=
  if a = .nan then b else if b = .nan then a else if b.lt a then b else a

/-- IEEE division of two finite values: `0/0 = NaN`, `x/0 = ±∞` following the
sign of `x` (rational zero is unsigned, matching literal `0.0` divisors),
otherwise the exact quotient. -/
def qdiv (a b : ℚ) : EF :=
  if b = 0 then
    if a = 0 then .nan else if 0 < a then .posInf else .negInf
  else .fin (a / b)

/-- IEEE subtraction `a - o` of a finite value from an `EF` value. -/
def EF.subQ (a : EF) (o : ℚ) : EF :=
  match a with
  | .nan => .nan
  | .negInf => .negInf
  | .posInf => .posInf
  | .fin q => .fin (q - o)

/-- IEEE division of an `EF` value by a finite value: infinities keep or flip
their sign with the divisor's sign (`±∞ / 0 = ±∞`, since rational zero is the
unsigned `+0`). -/
def EF.divQ (a : EF) (d : ℚ) : EF :=
  match a with
  | .nan => .nan
  | .negInf => if d < 0 then .posInf else .negInf
  | .posInf => if d < 0 then .negInf else .posInf
  | .fin q => qdiv q d

/-- `check_axis` from `scene/object/cube.rs` lines 56-68: per-axis slab
parameters `(-1 - origin)/direction` and `(1 - origin)/direction`, swapped
when `tmin > tmax` (false for NaN, so NaN pairs are not swapped). -/
def checkAxis (origin direction : ℚ) : EF × EF :=
  let tminNumerator := -1 - origin
  let tmaxNumerator := 1 - origin
  let tmin := qdiv tminNumerator direction
  let tmax := qdiv tmaxNumerator direction
  if EF.lt tmax tmin then (tmax, tmin) else (tmin, tmax)

/-- `Cube::intersect_local` from `scene/object/cube.rs` lines 23-36. -/
def cubeIntersectLocal (objectRay : Ray) : List EF :=
  let xt := checkAxis objectRay.origin.x objectRay.direction.x
  let yt := checkAxis objectRay.origin.y objectRay.direction.y
  let zt := checkAxis objectRay.origin.z objectRay.direction.z
  let tmin := (xt.1.fmax yt.1).fmax zt.1
  let tmax := (xt.2.fmin yt.2).fmin zt.2
  if EF.lt tmax tmin then [] else [tmin, tmax]

/-- The overall `tmin` of the spec's slab description (§4.3): the maximum of
the per-axis minima. -/
def cubeSpecTmin (objectRay : Ray) : EF :=
  (((checkAxis objectRay.origin.x objectRay.direction.x).1.fmax
      (checkAxis objectRay.origin.y objectRay.direction.y).1).fmax
    (checkAxis objectRay.origin.z objectRay.direction.z).1)

/-- The overall `tmax` of the spec's slab description (§4.3): the minimum of
the per-axis maxima. -/
def cubeSpecTmax (objectRay : Ray) : EF :=
  (((checkAxis objectRay.origin.x objectRay.direction.x).2.fmin
      (checkAxis objectRay.origin.y objectRay.direction.y).2).fmin
    (checkAxis objectRay.origin.z objectRay.direction.z).2)

/-- `Plane::intersect` from `scene/object/plane.rs` lines 26-39, reduced to
the list of returned `t` roots (`build_basic_intersection` of
`scene/object/mod.rs`, not under `src/`, only packages each root with the
color and normal at that root).  The parallel/coplanar guard
`|direction.y| < 1e-8` and the single root `-origin.y / direction.y` follow
the source. -/
def planeIntersect (objectRay : Ray) : List ℚ :=
  if |objectRay.direction.y| < 1 / 100000000 then []
  else [-objectRay.origin.y / objectRay.direction.y]

/-- `Color` (`draw/color.rs`, not under `src/`; modelled from the spec:
an RGB triple with componentwise addition and multiplication and scalar
multiplication, left unclamped). -/
structure Color where
  r : ℚ
  g : ℚ
  b : ℚ
deriving DecidableEq, Repr

def Color.mul (a c : Color) : Color :=
  ⟨a.r * c.r, a.g * c.g, a.b * c.b⟩

def Color.smul (a : Color) (s : ℚ) : Color :=
  ⟨a.r * s, a.g * s, a.b * s⟩

def Color.add (a c : Color) : Color :=
  ⟨a.r + c.r, a.g + c.g, a.b + c.b⟩

def black : Color := ⟨0, 0, 0⟩

def white : Color := ⟨1, 1, 1⟩

/-- `PointLight` (`scene/light.rs`, not under `src/`; modelled from the
spec data model: position plus intensity color). -/
structure PointLight where
  position : Point3
  intensity : Color
deriving DecidableEq, Repr

/-- `Material` from `scene/material.rs` lines 22-31.  The surface is kept as
a flat color (the claims under verification never sample a pattern).  The
`id` field stands for the instance identity that `std::ptr::eq` compares:
per spec §9, reference equality is modelled by a stable identity token
rather than a raw address. -/
structure Material where
  id : ℕ
  surface : Color
  ambient : ℚ
  diffuse : ℚ
  specular : ℚ
  shininess : ℕ
  reflectivity : ℚ
  transparency : ℚ
  refractiveIndex : ℚ
deriving DecidableEq, Repr

/-- `impl PartialEq for Material` from `scene/material.rs` lines 33-37:
`std::ptr::eq(self, other)`, embedded as equality of identity tokens. -/
def Material.ptrEq (m1 m2 : Material) : Bool :=
  m1.id == m2.id

/-- The default material from `scene/material.rs` lines 39-52, at a chosen
identity token. -/
def Material.mkDefault (id : ℕ) : Material :=
  ⟨id, white, 1/10, 9/10, 9/10, 200, 0, 0, 1⟩

/-- `lighting` from `scene/material.rs` lines 54-90.  The source computes
`lightv = normalize(light.position - point)`; the normalization involves a
square root that is not rational, so the already-normalized light vector is
passed in as `lightv`.  `powf` on the positive base `reflect_dot_eye` with
the material's shininess exponent is embedded as an exact natural power.
Everything else (effective color, un-attenuated ambient term, the
`light_dot_normal < 0` branch, the reflection test and the attenuated
diffuse and specular terms) follows the source. -/
def lighting (material : Material) (point : Point3) (objectColor : Color)
    (light : PointLight) (lightv : Vec3) (eyev normalv : Vec3)
    (shadowAttenuation : ℚ) : Color :=
  let _ := point
  let effectiveColor := objectColor.mul light.intensity
  let ambient := effectiveColor.smul material.ambient
  let lightDotNormal := lightv.dot normalv
  let ds : Color × Color :=
    if lightDotNormal < 0 then (black, black)
    else
      let diff := (effectiveColor.smul material.diffuse).smul lightDotNormal
      let reflectv := (lightv.reflect normalv).neg
      let reflectDotEye := reflectv.dot eyev
      (diff.smul shadowAttenuation,
        if reflectDotEye ≤ 0 then black
        else
          let factor := reflectDotEye ^ material.shininess
          light.intensity.smul (material.specular * factor * shadowAttenuation))
  (ambient.add ds.1).add ds.2

/-- A corner point of a bounding box; coordinates may be infinite
(`Point3d` holding `f64::INFINITY` / `f64::NEG_INFINITY`). -/
structure PointEF where
  x : EF
  y : EF
  z : EF
deriving DecidableEq, Repr

/-- `Bounds` from `scene/object/bounded.rs` lines 11-15. -/
structure Bounds where
  minimum : PointEF
  maximum : PointEF
deriving DecidableEq, Repr

/-- An object as seen by the decorators: its `intersect`, `normal_at` and
`bounds` capabilities and its material (dynamic dispatch through an `Object`
trait object becomes explicit function passing).  `ι` is the element type of
the intersection list the child produces; the child's normal is returned as
the underlying vector of its `NormalizedVec3d`. -/
structure ObjectModel (ι : Type) where
  intersect : Ray → List ι
  normalAt : Point3 → Vec3
  bounds : Bounds
  material : Material

/-- `check_axis` from `scene/object/bounded.rs` lines 127-139: the cube slab
test generalized to arbitrary (possibly infinite) `min`/`max` corners. -/
def boundedCheckAxis (min max : EF) (origin speed : ℚ) : EF × EF :=
  let distanceToMin := min.subQ origin
  let distanceToMax := max.subQ origin
  let tmin := distanceToMin.divQ speed
  let tmax := distanceToMax.divQ speed
  if EF.lt tmax tmin then (tmax, tmin) else (tmin, tmax)

/-- `Bounded` from `scene/object/bounded.rs` lines 87-90: a stored bounds
value plus the wrapped child. -/
structure Bounded (ι : Type) where
  bounds : Bounds
  child : ObjectModel ι

/-- `Bounded::new` from `scene/object/bounded.rs` lines 93-98: the child's
bounds are computed once at construction and stored. -/
def Bounded.new {ι : Type} (child : ObjectModel ι) : Bounded ι :=
  ⟨child.bounds, child⟩

/-- `Bounded::test` from `scene/object/bounded.rs` lines 100-124. -/
def Bounded.test {ι : Type} (b : Bounded ι) (ray : Ray) : Bool :=
  let xt := boundedCheckAxis b.bounds.minimum.x b.bounds.maximum.x
    ray.origin.x ray.direction.x
  let yt := boundedCheckAxis b.bounds.minimum.y b.bounds.maximum.y
    ray.origin.y ray.direction.y
  let zt := boundedCheckAxis b.bounds.minimum.z b.bounds.maximum.z
    ray.origin.z ray.direction.z
  let tmin := (xt.1.fmax yt.1).fmax zt.1
  let tmax := (xt.2.fmin yt.2).fmin zt.2
  EF.le tmin tmax

/-- `Bounded::intersect` from `scene/object/bounded.rs` lines 146-152. -/
def Bounded.intersect {ι : Type} (b : Bounded ι) (ray : Ray) : List ι :=
  if b.test ray then b.child.intersect ray else []

/-- `Bounded::bounds` from `scene/object/bounded.rs` lines 154-156: the
stored value, unchanged. -/
def Bounded.boundsOf {ι : Type} (b : Bounded ι) : Bounds :=
  b.bounds

/-- `InvertibleMatrix` (`math/matrix.rs`, not under `src/`; modelled from
the spec: an invertible affine transform with its cached inverse and, for
normal mapping, the cached inverse-transpose, here represented by their
actions on points and vectors). -/
structure InvertibleTransform where
  fwdPoint : Point3 → Point3
  fwdVec : Vec3 → Vec3
  invPoint : Point3 → Point3
  invVec : Vec3 → Vec3
  invTransposeVec : Vec3 → Vec3

/-- The identity transform. -/
def InvertibleTransform.identity : InvertibleTransform :=
  ⟨id, id, id, id, id⟩

/-- `Transformed` from `scene/object/transformed.rs` lines 13-16.  `tag` is
the wrapper's own object identity, standing for `self as &dyn Object`: the
child produces intersections tagged with values of `ι` and the wrapper
re-tags them with `tag`. -/
structure Transformed (ι : Type) where
  child : ObjectModel (Intersection ι)
  transform : InvertibleTransform
  tag : ι

/-- `Transformed::intersect` from `scene/object/transformed.rs` lines 28-34:
transform the incoming ray by the inverse transform, delegate to the child,
and rebuild each intersection as `Intersection::new(x.t(), self)`. -/
def Transformed.intersect {ι : Type} (tr : Transformed ι) (objectRay : Ray) :
    List (Intersection ι) :=
  let localRay := objectRay.transformBy tr.transform.invPoint tr.transform.invVec
  let xs := tr.child.intersect localRay
  xs.map (fun x => Intersection.mk x.t tr.tag)

/-- `Transformed::material` from `scene/object/transformed.rs` lines 19-21. -/
def Transformed.material {ι : Type} (tr : Transformed ι) : Material :=
  tr.child.material

/-- Modelled from the spec: `NormalizedVec3d::try_from` (`math/vector.rs`,
not under `src/`) fails with `DegenerateVectorError` on a (near-)zero input
and otherwise yields the normalized vector.  Over exact rationals the
normalized direction is irrational in general, so the embedding keeps the
direction un-scaled and fails exactly on the zero vector; the source's
`.unwrap()` of the result is a potential panic, embedded as `none`. -/
def normalizeOpt (v : Vec3) : Option Vec3 :=
  if v = ⟨0, 0, 0⟩ then none else some v

/-- `Surface::color_at` / `material::color_at` from `scene/material.rs`
lines 13-20, restricted to the flat-color variant carried by the embedded
`Material` (the claims under verification never sample a pattern): the
stored color is returned, the point is ignored. -/
def surfaceColorAt (surface : Color) (point : Point3) : Color :=
  let _ := point
  surface

/-- `Transformed::color_at` from `scene/object/transformed.rs` lines 23-26:
map the point into the child's frame with the inverse transform and evaluate
the material's surface there. -/
def Transformed.colorAt {ι : Type} (tr : Transformed ι) (point : Point3) :
    Color :=
  let objectPoint := tr.transform.invPoint point
  surfaceColorAt tr.material.surface objectPoint

/-- `Transformed::normal_at` from `scene/object/transformed.rs` lines 36-41:
map the point into the child's frame, take the child's normal there, map it
back with the inverse-transpose, and re-validate it as a unit vector
(`NormalizedVec3d::try_from(world_normal).unwrap()`, a panic on a
degenerate result, embedded as `none`). -/
def Transformed.normalAt {ι : Type} (tr : Transformed ι)
    (objectPoint : Point3) : Option Vec3 :=
  let localPoint := tr.transform.invPoint objectPoint
  let localNormal := tr.child.normalAt localPoint
  let worldNormal := tr.transform.invTransposeVec localNormal
  normalizeOpt worldNormal

/-- `Transformed::bounds` from `scene/object/transformed.rs` lines 43-45:
the body is `todo!()`, an unconditional panic that never produces a value;
a panicking computation is embedded as `none`. -/
def Transformed.boundsOf {ι : Type} (tr : Transformed ι) : Option Bounds :=
  let _ := tr
  none

/-- The hit-selection example of spec §8: intersections at `t = 5, 7, -3, 2`
(on four distinguishable objects, so the selected record is observable). -/
def sampleHitList : List (Intersection ℕ) :=
  [⟨5, 0⟩, ⟨7, 1⟩, ⟨-3, 2⟩, ⟨2, 3⟩]

/-- An all-negative intersection list. -/
def sampleNegativeList : List (Intersection ℕ) :=
  [⟨-2, 0⟩, ⟨-1, 1⟩]

/-- Two intersections on distinct objects sharing the smallest non-negative
`t`. -/
def sampleTieList : List (Intersection ℕ) :=
  [⟨2, 0⟩, ⟨2, 1⟩]

/-- A degenerate ray: origin on the `+x`, `+y` and `+z` face planes of the
canonical cube, zero direction.  Every axis produces the slab pair
`(-∞, NaN)`. -/
def degenerateCubeRay : Ray :=
  ⟨⟨1, 1, 1⟩, ⟨0, 0, 0⟩⟩

/-- The plane test ray from above: origin `(0,1,0)`, direction `(0,-1,0)`. -/
def planeRayFromAbove : Ray :=
  ⟨⟨0, 1, 0⟩, ⟨0, -1, 0⟩⟩

/-- The finite test box `[2,2,2]-[4,4,4]` of `bounded.rs`'s tests. -/
def sampleBox : Bounds :=
  ⟨⟨.fin 2, .fin 2, .fin 2⟩, ⟨.fin 4, .fin 4, .fin 4⟩⟩

/-- A child object with the sample box as bounds whose intersect always
reports one hit and whose normal is constantly `(0,1,0)`. -/
def sampleChild : ObjectModel ℕ :=
  ⟨fun _ => [7], fun _ => ⟨0, 1, 0⟩, sampleBox, Material.mkDefault 0⟩

/-- A ray aimed past the `+x` face of the sample box (offset `0.1` beyond
the `y` boundary), which the slab test rejects. -/
def sampleMissRay : Ray :=
  ⟨⟨5, 41/10, 3⟩, ⟨-1, 0, 0⟩⟩

/-- A ray aimed at the `+x` face of the sample box, which the slab test
accepts. -/
def sampleHitRay : Ray :=
  ⟨⟨5, 3, 3⟩, ⟨-1, 0, 0⟩⟩

/-- A transformed wrapper around a child reporting one hit at `t = 1` tagged
`0` and a constant `(0,0,-1)` normal, with the identity transform; the
wrapper's own tag is `5`. -/
def sampleTransformed : Transformed ℕ :=
  ⟨⟨fun _ => [⟨1, 0⟩], fun _ => ⟨0, 0, -1⟩, sampleBox, Material.mkDefault 0⟩,
    InvertibleTransform.identity, 5⟩

/-- The lighting test configuration of spec §8: surface at the origin, eye
and normal toward `-z`, white light at `(0,0,-10)` (unit light vector
`(0,0,-1)`). -/
def sampleLight : PointLight :=
  ⟨⟨0, 0, -10⟩, white⟩

def sampleEye : Vec3 := ⟨0, 0, -1⟩

def sampleNormal : Vec3 := ⟨0, 0, -1⟩

def sampleLightV : Vec3 := ⟨0, 0, -1⟩

/-- The prepare-computations example of spec §8: sphere hit at `t = 4` from
`origin(0,0,-5)`, `direction(0,0,1)`. -/
def sampleIntersection : Intersection ℕ := ⟨4, 0⟩

def sampleRay : Ray := ⟨⟨0, 0, -5⟩, ⟨0, 0, 1⟩⟩

theorem hitStep_nonneg_some {ι : Type} (a i : Intersection ι) (h : 0 ≤ i.t) :
    hitStep (some a) i = some (if a.t < i.t then a else i) := by
  simp [hitStep, h]

theorem hitStep_nonneg_none {ι : Type} (i : Intersection ι) (h : 0 ≤ i.t) :
    hitStep (none : Option (Intersection ι)) i = some i := by
  simp [hitStep, h]

theorem hitStep_neg {ι : Type} (acc : Option (Intersection ι)) (i : Intersection ι)
    (h : ¬ 0 ≤ i.t) : hitStep acc i = acc := by
  simp [hitStep, h]

theorem hitFoldSome {ι : Type} :
    ∀ (xs : List (Intersection ι)) (a : Intersection ι), 0 ≤ a.t →
      ∃ r, xs.foldl hitStep (some a) = some r ∧ 0 ≤ r.t ∧ r.t ≤ a.t ∧
        (∀ j ∈ xs, 0 ≤ j.t → r.t ≤ j.t) ∧
        ((r = a ∧ ∀ j ∈ xs, 0 ≤ j.t → a.t < j.t) ∨
          ∃ ys zs, xs = ys ++ r :: zs ∧ ∀ j ∈ zs, 0 ≤ j.t → r.t < j.t)
  | [], a, ha => ⟨a, rfl, ha, le_refl _, by simp, Or.inl ⟨rfl, by simp⟩⟩
  | x :: xs, a, ha => by
    rw [List.foldl_cons]
    by_cases hx : 0 ≤ x.t
    · rw [hitStep_nonneg_some a x hx]
      by_cases hlt : a.t < x.t
      · rw [if_pos hlt]
        obtain ⟨r, hr, hr0, hra, hmin, hdisj⟩ := hitFoldSome xs a ha
        refine ⟨r, hr, hr0, hra, ?_, ?_⟩
        · intro j hj hj0
          rcases List.mem_cons.mp hj with rfl | hj
          · exact le_trans hra (le_of_lt hlt)
          · exact hmin j hj hj0
        · rcases hdisj with ⟨rfl, hall⟩ | ⟨ys, zs, hsplit, hz⟩
          · refine Or.inl ⟨rfl, ?_⟩
            intro j hj hj0
            rcases List.mem_cons.mp hj with rfl | hj
            · exact hlt
            · exact hall j hj hj0
          · exact Or.inr ⟨x :: ys, zs, by rw [hsplit]; rfl, hz⟩
      · rw [if_neg hlt]
        obtain ⟨r, hr, hr0, hrx, hmin, hdisj⟩ := hitFoldSome xs x hx
        refine ⟨r, hr, hr0, le_trans hrx (not_lt.mp hlt), ?_, ?_⟩
        · intro j hj hj0
          rcases List.mem_cons.mp hj with rfl | hj
          · exact hrx
          · exact hmin j hj hj0
        · rcases hdisj with ⟨rfl, hall⟩ | ⟨ys, zs, hsplit, hz⟩
          · exact Or.inr ⟨[], xs, rfl, hall⟩
          · exact Or.inr ⟨x :: ys, zs, by rw [hsplit]; rfl, hz⟩
    · rw [hitStep_neg _ x hx]
      obtain ⟨r, hr, hr0, hra, hmin, hdisj⟩ := hitFoldSome xs a ha
      refine ⟨r, hr, hr0, hra, ?_, ?_⟩
      · intro j hj hj0
        rcases List.mem_cons.mp hj with rfl | hj
        · exact absurd hj0 hx
        · exact hmin j hj hj0
      · rcases hdisj with ⟨rfl, hall⟩ | ⟨ys, zs, hsplit, hz⟩
        · refine Or.inl ⟨rfl, ?_⟩
          intro j hj hj0
          rcases List.mem_cons.mp hj with rfl | hj
          · exact absurd hj0 hx
          · exact hall j hj hj0
        · exact Or.inr ⟨x :: ys, zs, by rw [hsplit]; rfl, hz⟩

theorem hitFoldNone {ι : Type} :
    ∀ xs : List (Intersection ι),
      (xs.foldl hitStep none = none ↔ ∀ j ∈ xs, j.t < 0)
  | [] => by simp
  | x :: xs => by
    rw [List.foldl_cons]
    by_cases hx : 0 ≤ x.t
    · rw [hitStep_nonneg_none x hx]
      obtain ⟨r, hr, -, -, -, -⟩ := hitFoldSome xs x hx
      rw [hr]
      constructor
      · intro h
        exact absurd h (Option.some_ne_none r)
      · intro h
        exact absurd (h x (List.mem_cons_self x xs)) (not_lt.mpr hx)
    · rw [hitStep_neg none x hx, hitFoldNone xs]
      constructor
      · intro h j hj
        rcases List.mem_cons.mp hj with rfl | hj
        · exact not_le.mp hx
        · exact h j hj
      · intro h j hj
        exact h j (List.mem_cons_of_mem x hj)

theorem hitSomeCharacterization {ι : Type} :
    ∀ (xs : List (Intersection ι)) (r : Intersection ι),
      xs.foldl hitStep none = some r →
      0 ≤ r.t ∧ (∀ j ∈ xs, 0 ≤ j.t → r.t ≤ j.t) ∧
        ∃ ys zs, xs = ys ++ r :: zs ∧ ∀ j ∈ zs, 0 ≤ j.t → r.t < j.t
  | [], r, h => by cases h
  | x :: xs, r, h => by
    rw [List.foldl_cons] at h
    by_cases hx : 0 ≤ x.t
    · rw [hitStep_nonneg_none x hx] at h
      obtain ⟨r', hr', h0, hrx, hmin, hdisj⟩ := hitFoldSome xs x hx
      rw [hr'] at h
      obtain rfl : r' = r := Option.some.inj h
      refine ⟨h0, ?_, ?_⟩
      · intro j hj hj0
        rcases List.mem_cons.mp hj with rfl | hj
        · exact hrx
        · exact hmin j hj hj0
      · rcases hdisj with ⟨rfl, hall⟩ | ⟨ys, zs, hsplit, hz⟩
        · exact ⟨[], xs, rfl, hall⟩
        · exact ⟨x :: ys, zs, by rw [hsplit]; rfl, hz⟩
    · rw [hitStep_neg none x hx] at h
      obtain ⟨h0, hmin, ys, zs, hsplit, hz⟩ := hitSomeCharacterization xs r h
      refine ⟨h0, ?_, x :: ys, zs, by rw [hsplit]; rfl, hz⟩
      intro j hj hj0
      rcases List.mem_cons.mp hj with rfl | hj
      · exact absurd hj0 hx
      · exact hmin j hj hj0

/-- Claim C1: `hit` returns an intersection whose `t` is non-negative and
minimal among all non-negative `t` values in the list, and returns `none`
exactly when every intersection in the list has negative `t`. -/
theorem hit_smallest_nonneg {ι : Type} (xs : List (Intersection ι)) :
    (hit xs = none ↔ ∀ j ∈ xs, j.t < 0) ∧
    ∀ r, hit xs = some r →
      r ∈ xs ∧ 0 ≤ r.t ∧ ∀ j ∈ xs, 0 ≤ j.t → r.t ≤ j.t := by
  refine ⟨hitFoldNone xs, ?_⟩
  intro r hr
  obtain ⟨h0, hmin, ys, zs, hsplit, -⟩ := hitSomeCharacterization xs r hr
  refine ⟨?_, h0, hmin⟩
  rw [hsplit]
  exact List.mem_append_right ys (List.mem_cons_self r zs)

theorem hit_smallest_nonneg_witness :
    (⟨2, 3⟩ : Intersection ℕ) ∈ sampleHitList ∧
    (0 : ℚ) ≤ Intersection.t (⟨2, 3⟩ : Intersection ℕ) ∧
    hit sampleNegativeList = none := by
  have h1 := (hit_smallest_nonneg sampleHitList).2 ⟨2, 3⟩ (by decide)
  have h2 := (hit_smallest_nonneg sampleNegativeList).1.mpr (by decide)
  exact ⟨h1.1, h1.2.1, h2⟩

/-- Claim C2, counterexample: on the list `[{t=2, object 0}, {t=2, object 1}]`
both intersections share the smallest non-negative `t`, yet `hit` returns
the second record, not the first. -/
theorem hit_tie_counterexample :
    hit sampleTieList = some ⟨2, 1⟩ ∧
    decide ((⟨2, 1⟩ : Intersection ℕ) = ⟨2, 0⟩) = false := by
  exact ⟨by decide, by decide⟩

/-- Claim C2, amended: whenever several intersections share the same smallest
non-negative `t`, `hit` returns the last such intersection in list order
(the fold replaces the current best whenever the new non-negative `t` is not
strictly greater): the returned record has minimal non-negative `t`, and
every strictly later element with non-negative `t` has strictly greater `t`. -/
theorem hit_tie_last {ι : Type} (xs : List (Intersection ι))
    (r : Intersection ι) (h : hit xs = some r) :
    (∀ j ∈ xs, 0 ≤ j.t → r.t ≤ j.t) ∧
    ∃ ys zs, xs = ys ++ r :: zs ∧ ∀ j ∈ zs, 0 ≤ j.t → r.t < j.t := by
  obtain ⟨-, hmin, ys, zs, hsplit, hz⟩ := hitSomeCharacterization xs r h
  exact ⟨hmin, ys, zs, hsplit, hz⟩

theorem hit_tie_last_witness :
    Intersection.t (⟨2, 1⟩ : Intersection ℕ) ≤
      Intersection.t (⟨2, 0⟩ : Intersection ℕ) :=
  (hit_tie_last sampleTieList ⟨2, 1⟩ (by decide)).1 ⟨2, 0⟩ (by decide) (by decide)

theorem Vec3.neg_dot (a b : Vec3) : (Vec3.neg a).dot b = -(a.dot b) := by
  simp [Vec3.neg, Vec3.dot]
  ring

/-- Claim C3: `prepare_computations` flips the normal and sets `inside`
exactly when the object's normal has negative dot product with the eye
vector; the returned normal always has non-negative dot product with the
eye vector, and `over_point` is the hit point offset by the oriented normal
scaled by `SHADOW_BIAS`. -/
theorem prepare_computations_orientation {ι : Type} (i : Intersection ι)
    (ray : Ray) (eyeV normalV : Vec3) :
    ((prepareComputations i ray eyeV normalV).inside = true ↔
      normalV.dot eyeV < 0) ∧
    ((prepareComputations i ray eyeV normalV).inside = true →
      (prepareComputations i ray eyeV normalV).normalV = normalV.neg) ∧
    ((prepareComputations i ray eyeV normalV).inside = false →
      (prepareComputations i ray eyeV normalV).normalV = normalV) ∧
    0 ≤ ((prepareComputations i ray eyeV normalV).normalV).dot eyeV ∧
    (prepareComputations i ray eyeV normalV).overPoint =
      ((prepareComputations i ray eyeV normalV).point).addVec
        (Vec3.smul SHADOW_BIAS ((prepareComputations i ray eyeV normalV).normalV)) ∧
    (prepareComputations i ray eyeV normalV).point = ray.position i.t := by
  by_cases h : normalV.dot eyeV < 0
  · refine ⟨?_, ?_, ?_, ?_, ?_, ?_⟩
    · simp [prepareComputations, h]
    · intro _
      simp [prepareComputations, h]
    · intro hfalse
      simp [prepareComputations, h] at hfalse
    · simp only [prepareComputations, if_pos h]
      rw [Vec3.neg_dot]
      linarith
    · simp [prepareComputations, h]
    · simp [prepareComputations, h]
  · refine ⟨?_, ?_, ?_, ?_, ?_, ?_⟩
    · simp [prepareComputations, h]
    · intro htrue
      simp [prepareComputations, h] at htrue
    · intro _
      simp [prepareComputations, h]
    · simp only [prepareComputations, if_neg h]
      exact not_lt.mp h
    · simp [prepareComputations, h]
    · simp [prepareComputations, h]

theorem prepare_computations_orientation_witness :
    (prepareComputations sampleIntersection sampleRay sampleEye
      sampleNormal).normalV = sampleNormal ∧
    0 ≤ ((prepareComputations sampleIntersection sampleRay sampleEye
      sampleNormal).normalV).dot sampleEye := by
  have h := prepare_computations_orientation sampleIntersection sampleRay
    sampleEye sampleNormal
  have hin : (prepareComputations sampleIntersection sampleRay sampleEye
      sampleNormal).inside = false := by
    norm_num [prepareComputations, sampleEye, sampleNormal, Vec3.dot]
  exact ⟨h.2.2.1 hin, h.2.2.2.1⟩

theorem EF.fmin_negInf (z : EF) : EF.fmin EF.negInf z = EF.negInf := by
  cases z <;> simp [EF.fmin, EF.lt]

theorem EF.fmax_negInf_fin (a : ℚ) : EF.fmax EF.negInf (EF.fin a) = EF.fin a := by
  simp [EF.fmax, EF.lt]

theorem EF.lt_negInf_fmax_fin (a : ℚ) (z : EF) :
    EF.lt EF.negInf (EF.fmax (EF.fin a) z) = true := by
  cases z with
  | nan => simp [EF.fmax, EF.lt]
  | negInf => simp [EF.fmax, EF.lt]
  | posInf => simp [EF.fmax, EF.lt]
  | fin b =>
    by_cases hab : a < b
    · simp [EF.fmax, EF.lt, hab]
    · simp [EF.fmax, EF.lt, hab]

theorem EF.lt_false_iff_le (a b : EF) (ha : a ≠ EF.nan) (hb : b ≠ EF.nan) :
    EF.lt b a = false ↔ EF.le a b = true := by
  cases a <;> cases b <;> simp_all [EF.lt, EF.le, not_lt]

theorem checkAxis_parallel_inside (o : ℚ) (h1 : -1 < o) (h2 : o < 1) :
    checkAxis o 0 = (EF.negInf, EF.posInf) := by
  have hmin : -1 - o < 0 := by linarith
  have hmax : 0 < 1 - o := by linarith
  simp [checkAxis, qdiv, EF.lt, hmin.ne, not_lt.mpr hmin.le, hmax.ne', hmax]

theorem checkAxis_parallel_beyond (o : ℚ) (h : 1 < o) :
    checkAxis o 0 = (EF.negInf, EF.negInf) := by
  have hmin : -1 - o < 0 := by linarith
  have hmax : 1 - o < 0 := by linarith
  simp [checkAxis, qdiv, EF.lt, hmin.ne, not_lt.mpr hmin.le, hmax.ne,
    not_lt.mpr hmax.le]

theorem checkAxis_nonzero (o d : ℚ) (hd : d ≠ 0) :
    ∃ a b : ℚ, checkAxis o d = (EF.fin a, EF.fin b) := by
  simp only [checkAxis, qdiv, if_neg hd]
  by_cases h : EF.lt (EF.fin ((1 - o) / d)) (EF.fin ((-1 - o) / d)) = true
  · rw [if_pos h]
    exact ⟨_, _, rfl⟩
  · rw [if_neg h]
    exact ⟨_, _, rfl⟩

theorem cube_parallel_beyond_misses (r : Ray) (hx : r.direction.x = 0)
    (ho : 1 < r.origin.x) (hy : r.direction.y ≠ 0) :
    cubeIntersectLocal r = [] := by
  obtain ⟨a, b, hyab⟩ := checkAxis_nonzero r.origin.y r.direction.y hy
  have hxax : checkAxis r.origin.x r.direction.x = (EF.negInf, EF.negInf) := by
    rw [hx]
    exact checkAxis_parallel_beyond r.origin.x ho
  simp only [cubeIntersectLocal, hxax, hyab, EF.fmin_negInf, EF.fmax_negInf_fin]
  rw [EF.lt_negInf_fmax_fin]
  rfl

/-- Claim C4 (amended): `Cube::intersect_local` computes per-axis slab
parameters `(-1 - origin)/direction` and `(1 - origin)/direction` (swapped
when `tmin > tmax`), takes the overall `tmin` as the maximum of the per-axis
minima and the overall `tmax` as the minimum of the per-axis maxima, and
returns `[tmin, tmax]` exactly when `tmin > tmax` is false (which coincides
with `tmin ≤ tmax` whenever neither value is NaN); axis-parallel rays are
handled by the signed infinities of division by zero with no special-case
branch, an interior parallel axis contributing the unconstraining slab
`(-∞, +∞)` and a parallel axis beyond the face plane forcing a miss. -/
theorem cube_intersect_slab :
    (∀ r : Ray, cubeIntersectLocal r =
      if EF.lt (cubeSpecTmax r) (cubeSpecTmin r) then []
      else [cubeSpecTmin r, cubeSpecTmax r]) ∧
    (∀ r : Ray, cubeSpecTmin r ≠ EF.nan → cubeSpecTmax r ≠ EF.nan →
      (cubeIntersectLocal r = [cubeSpecTmin r, cubeSpecTmax r] ↔
        EF.le (cubeSpecTmin r) (cubeSpecTmax r) = true)) ∧
    (∀ o : ℚ, -1 < o → o < 1 → checkAxis o 0 = (EF.negInf, EF.posInf)) ∧
    (∀ r : Ray, r.direction.x = 0 → 1 < r.origin.x → r.direction.y ≠ 0 →
      cubeIntersectLocal r = []) := by
  have hcode : ∀ r : Ray, cubeIntersectLocal r =
      if EF.lt (cubeSpecTmax r) (cubeSpecTmin r) then []
      else [cubeSpecTmin r, cubeSpecTmax r] := fun r => rfl
  refine ⟨hcode, ?_, checkAxis_parallel_inside, cube_parallel_beyond_misses⟩
  intro r h1 h2
  by_cases hlt : EF.lt (cubeSpecTmax r) (cubeSpecTmin r) = true
  · rw [hcode r, if_pos hlt]
    constructor
    · intro h
      exact absurd h (by simp)
    · intro h
      rw [(EF.lt_false_iff_le _ _ h1 h2).mpr h] at hlt
      cases hlt
  · have hlt' : EF.lt (cubeSpecTmax r) (cubeSpecTmin r) = false :=
      Bool.not_eq_true _ |>.mp hlt
    rw [hcode r, if_neg hlt]
    simp [(EF.lt_false_iff_le _ _ h1 h2).mp hlt']

theorem cube_intersect_slab_witness :
    checkAxis 0 0 = (EF.negInf, EF.posInf) ∧
    cubeIntersectLocal ⟨⟨2, 0, -5⟩, ⟨0, 1, 0⟩⟩ = [] := by
  have h := cube_intersect_slab
  exact ⟨h.2.2.1 0 (by norm_num) (by norm_num),
    h.2.2.2 ⟨⟨2, 0, -5⟩, ⟨0, 1, 0⟩⟩ rfl (by norm_num) (by norm_num)⟩

/-- Claim C4, counterexample to the claim as stated: the degenerate ray with
origin `(1,1,1)` and zero direction gives `tmin = -∞` and `tmax = NaN`, so
`tmin ≤ tmax` is false, yet `intersect_local` returns the non-empty list
`[tmin, tmax]` (the code's guard `tmin > tmax` is also false on NaN). -/
theorem cube_nan_counterexample :
    cubeIntersectLocal degenerateCubeRay = [EF.negInf, EF.nan] ∧
    cubeSpecTmin degenerateCubeRay = EF.negInf ∧
    cubeSpecTmax degenerateCubeRay = EF.nan ∧
    EF.le (cubeSpecTmin degenerateCubeRay) (cubeSpecTmax degenerateCubeRay)
      = false ∧
    decide (cubeIntersectLocal degenerateCubeRay = []) = false := by
  have hax : checkAxis 1 0 = (EF.negInf, EF.nan) := by
    norm_num [checkAxis, qdiv, EF.lt]
  have hres : cubeIntersectLocal degenerateCubeRay = [EF.negInf, EF.nan] := by
    simp only [cubeIntersectLocal, degenerateCubeRay, hax]
    decide
  have hmin : cubeSpecTmin degenerateCubeRay = EF.negInf := by
    simp only [cubeSpecTmin, degenerateCubeRay, hax]
    decide
  have hmax : cubeSpecTmax degenerateCubeRay = EF.nan := by
    simp only [cubeSpecTmax, degenerateCubeRay, hax]
    decide
  refine ⟨hres, hmin, hmax, ?_, ?_⟩
  · rw [hmin, hmax]
    decide
  · rw [hres]
    decide

/-- Claim C5: `Plane::intersect` returns no roots when `|direction.y|` is
below the parallel threshold `1e-8`, and otherwise exactly one root
`-origin.y / direction.y`. -/
theorem plane_intersect_roots (r : Ray) :
    (|r.direction.y| < 1 / 100000000 → planeIntersect r = []) ∧
    (1 / 100000000 ≤ |r.direction.y| →
      planeIntersect r = [-r.origin.y / r.direction.y]) := by
  constructor
  · intro h
    unfold planeIntersect
    rw [if_pos h]
  · intro h
    unfold planeIntersect
    rw [if_neg (not_lt.mpr h)]

theorem plane_intersect_roots_witness :
    planeIntersect planeRayFromAbove = [1] ∧
    planeIntersect ⟨⟨0, 0, 0⟩, ⟨0, 0, 1⟩⟩ = [] := by
  have h1 := (plane_intersect_roots planeRayFromAbove).2
    (by norm_num [planeRayFromAbove])
  have h2 := (plane_intersect_roots ⟨⟨0, 0, 0⟩, ⟨0, 0, 1⟩⟩).1 (by norm_num)
  refine ⟨?_, h2⟩
  rw [h1]
  norm_num [planeRayFromAbove]

theorem Color.eq_of_fields (a b : Color) (hr : a.r = b.r) (hg : a.g = b.g)
    (hb : a.b = b.b) : a = b := by
  cases a
  cases b
  simp_all

theorem lightingLinear (material : Material) (point : Point3)
    (objectColor : Color) (light : PointLight) (lightv eyev normalv : Vec3) :
    ∃ d : Color, ∀ s : ℚ,
      lighting material point objectColor light lightv eyev normalv s =
        ((objectColor.mul light.intensity).smul material.ambient).add
          (d.smul s) := by
  by_cases h1 : lightv.dot normalv < 0
  · refine ⟨black, fun s => ?_⟩
    simp only [lighting, if_pos h1]
    refine Color.eq_of_fields _ _ ?_ ?_ ?_ <;>
      simp [Color.add, Color.smul, Color.mul, black]
  · by_cases h2 : ((lightv.reflect normalv).neg).dot eyev ≤ 0
    · refine ⟨((objectColor.mul light.intensity).smul material.diffuse).smul
        (lightv.dot normalv), fun s => ?_⟩
      simp only [lighting, if_neg h1, if_pos h2]
      refine Color.eq_of_fields _ _ ?_ ?_ ?_ <;>
        simp [Color.add, Color.smul, Color.mul, black]
    · refine ⟨(((objectColor.mul light.intensity).smul material.diffuse).smul
        (lightv.dot normalv)).add (light.intensity.smul (material.specular *
        (((lightv.reflect normalv).neg).dot eyev) ^ material.shininess)),
        fun s => ?_⟩
      simp only [lighting, if_neg h1, if_neg h2]
      refine Color.eq_of_fields _ _ ?_ ?_ ?_ <;>
        simp [Color.add, Color.smul, Color.mul, black] <;> ring

/-- Claim C6: the ambient term `object_color × light.intensity ×
material.ambient` is always part of the result and is never multiplied by
`shadow_attenuation` (the rest of the result is linear in the attenuation),
so with `shadow_attenuation = 0` the result is exactly the ambient term; for
the default material under a white light this is `Color(0.1, 0.1, 0.1)`. -/
theorem lighting_ambient_term (material : Material) (point : Point3)
    (objectColor : Color) (light : PointLight) (lightv eyev normalv : Vec3) :
    (∃ d : Color, ∀ s : ℚ,
      lighting material point objectColor light lightv eyev normalv s =
        ((objectColor.mul light.intensity).smul material.ambient).add
          (d.smul s)) ∧
    lighting material point objectColor light lightv eyev normalv 0 =
      (objectColor.mul light.intensity).smul material.ambient ∧
    lighting (Material.mkDefault 0) ⟨0, 0, 0⟩ white sampleLight sampleLightV
      sampleEye sampleNormal 0 = ⟨1/10, 1/10, 1/10⟩ := by
  obtain ⟨d, hd⟩ := lightingLinear material point objectColor light lightv
    eyev normalv
  refine ⟨⟨d, hd⟩, ?_, ?_⟩
  · rw [hd 0]
    refine Color.eq_of_fields _ _ ?_ ?_ ?_ <;> simp [Color.add, Color.smul]
  · obtain ⟨d0, hd0⟩ := lightingLinear (Material.mkDefault 0) ⟨0, 0, 0⟩ white
      sampleLight sampleLightV sampleEye sampleNormal
    rw [hd0 0]
    refine Color.eq_of_fields _ _ ?_ ?_ ?_ <;>
      norm_num [Color.add, Color.smul, Color.mul, white, sampleLight,
        Material.mkDefault]

/-- Claim C7: `Bounded::intersect` returns the empty list when the slab test
against the stored bounds fails — for every possible child, so the child is
never consulted — and otherwise returns exactly the child's result;
`Bounded::bounds` returns the child's bounds stored at construction,
unchanged. -/
theorem bounded_decorator_behavior {ι : Type} :
    (∀ (bd : Bounded ι) (r : Ray), bd.test r = false →
      ∀ c' : ObjectModel ι, Bounded.intersect ⟨bd.bounds, c'⟩ r = []) ∧
    (∀ (bd : Bounded ι) (r : Ray), bd.test r = true →
      bd.intersect r = bd.child.intersect r) ∧
    ∀ c : ObjectModel ι, Bounded.boundsOf (Bounded.new c) = c.bounds := by
  refine ⟨?_, ?_, fun c => rfl⟩
  · intro bd r h c'
    have ht : Bounded.test ⟨bd.bounds, c'⟩ r = false := h
    simp [Bounded.intersect, ht]
  · intro bd r h
    simp [Bounded.intersect, h]

theorem bounded_decorator_behavior_witness :
    Bounded.intersect (Bounded.new sampleChild) sampleMissRay = [] ∧
    Bounded.intersect (Bounded.new sampleChild) sampleHitRay = [7] := by
  have h := @bounded_decorator_behavior ℕ
  have hmiss : Bounded.test (Bounded.new sampleChild) sampleMissRay = false := by
    norm_num [Bounded.test, Bounded.new, sampleChild, sampleBox, sampleMissRay,
      boundedCheckAxis, EF.subQ, EF.divQ, qdiv]
    decide
  have hhit : Bounded.test (Bounded.new sampleChild) sampleHitRay = true := by
    norm_num [Bounded.test, Bounded.new, sampleChild, sampleBox, sampleHitRay,
      boundedCheckAxis, EF.subQ, EF.divQ, qdiv]
    decide
  refine ⟨h.1 (Bounded.new sampleChild) sampleMissRay hmiss sampleChild, ?_⟩
  rw [h.2.1 (Bounded.new sampleChild) sampleHitRay hhit]
  rfl

/-- Claim C8: `Transformed::intersect` transforms the incoming ray by the
inverse of its transform, delegates to the child on the transformed ray, and
returns one intersection per child intersection with the identical `t` value
but with the object reference re-tagged to the wrapper itself. -/
theorem transformed_intersect_retag {ι : Type} (tr : Transformed ι) (r : Ray) :
    tr.intersect r =
      (tr.child.intersect (r.transformBy tr.transform.invPoint
        tr.transform.invVec)).map (fun x => Intersection.mk x.t tr.tag) ∧
    (tr.intersect r).map Intersection.t =
      (tr.child.intersect (r.transformBy tr.transform.invPoint
        tr.transform.invVec)).map Intersection.t ∧
    ∀ x ∈ tr.intersect r, x.object = tr.tag := by
  refine ⟨rfl, ?_, ?_⟩
  · simp only [Transformed.intersect, List.map_map]
    rfl
  · intro x hx
    simp only [Transformed.intersect, List.mem_map] at hx
    obtain ⟨y, -, rfl⟩ := hx
    rfl

theorem transformed_intersect_retag_witness :
    Transformed.intersect sampleTransformed sampleRay = [⟨1, 5⟩] ∧
    Intersection.object (⟨1, (5 : ℕ)⟩ : Intersection ℕ) =
      sampleTransformed.tag := by
  have h := transformed_intersect_retag sampleTransformed sampleRay
  refine ⟨?_, h.2.2 ⟨1, 5⟩ ?_⟩
  · rw [h.1]
    rfl
  · decide

/-- Claim C9: material equality is identity-based — `m1 == m2` holds exactly
when the two refer to the same instance (same identity token), and two
distinct instances whose shading field values are all identical compare
unequal. -/
theorem material_identity_equality :
    (∀ m1 m2 : Material, Material.ptrEq m1 m2 = true ↔ m1.id = m2.id) ∧
    (∀ m1 m2 : Material, m1.surface = m2.surface → m1.ambient = m2.ambient →
      m1.diffuse = m2.diffuse → m1.specular = m2.specular →
      m1.shininess = m2.shininess → m1.reflectivity = m2.reflectivity →
      m1.transparency = m2.transparency →
      m1.refractiveIndex = m2.refractiveIndex → m1.id ≠ m2.id →
      Material.ptrEq m1 m2 = false) ∧
    Material.ptrEq (Material.mkDefault 0) (Material.mkDefault 0) = true := by
  refine ⟨?_, ?_, by decide⟩
  · intro m1 m2
    simp [Material.ptrEq]
  · intro m1 m2 _ _ _ _ _ _ _ _ hne
    simp [Material.ptrEq, hne]

theorem material_identity_equality_witness :
    Material.ptrEq (Material.mkDefault 0) (Material.mkDefault 1) = false :=
  material_identity_equality.2.1 (Material.mkDefault 0) (Material.mkDefault 1)
    rfl rfl rfl rfl rfl rfl rfl rfl (by decide)

/-- Claim C10: `Transformed::bounds` is an unimplemented `todo!()` panic that
never produces a `Bounds` value (embedded: always `none`), while `material`,
`intersect`, `normal_at` and `color_at` on the same wrapper do return
values: `material` the child's material, `intersect` the re-tagged child
intersections, `color_at` the surface color at the inverse-transformed
point, and `normal_at` the re-validated inverse-transpose-mapped child
normal, which is a value whenever the mapped normal is not degenerate (the
source's `.unwrap()` panics only on a degenerate normal). -/
theorem transformed_bounds_unimplemented {ι : Type} (tr : Transformed ι)
    (p : Point3) (r : Ray) :
    Transformed.boundsOf tr = none ∧
    Transformed.material tr = tr.child.material ∧
    Transformed.intersect tr r =
      (tr.child.intersect (r.transformBy tr.transform.invPoint
        tr.transform.invVec)).map (fun x => Intersection.mk x.t tr.tag) ∧
    Transformed.colorAt tr p = tr.child.material.surface ∧
    Transformed.normalAt tr p = normalizeOpt (tr.transform.invTransposeVec
      (tr.child.normalAt (tr.transform.invPoint p))) ∧
    (tr.transform.invTransposeVec (tr.child.normalAt (tr.transform.invPoint p))
        ≠ ⟨0, 0, 0⟩ →
      (Transformed.normalAt tr p).isSome = true) := by
  refine ⟨rfl, rfl, rfl, rfl, rfl, ?_⟩
  intro h
  simp [Transformed.normalAt, normalizeOpt, h]

theorem transformed_bounds_unimplemented_witness :
    Transformed.boundsOf sampleTransformed = none ∧
    (Transformed.normalAt sampleTransformed ⟨0, 0, 0⟩).isSome = true := by
  have h := transformed_bounds_unimplemented sampleTransformed ⟨0, 0, 0⟩
    sampleRay
  exact ⟨h.1, h.2.2.2.2.2 (by decide)⟩

end RTC
